import Mathlib

/-!
Verification development for the clariFi frontend data pipeline.

The definitions below are a shallow embedding of the TypeScript source:

* the transaction table component (filtering, sorting, pagination),
* the analytics dashboard component (category aggregation `categoryData`
  and monthly timeline aggregation `timelineData`),
* the API client response handler (`handleResponse`),
* the upload zone component (CSV validation and upload state machine).

Modelling conventions:

* JS numbers carrying money amounts are modelled as `Rat` (all the
  arithmetic the claims exercise is exact).
* A transaction's date string is modelled by the calendar fields the code
  extracts from it (`year`, `month`, `day`); `Date.getTime()` comparison of
  valid dates coincides with lexicographic comparison of these fields.
* `Array.prototype.sort` is stable (ES2019), so it is modelled by
  Mathlib's stable `List.insertionSort`.
* JS `String.prototype.toLowerCase` / code-unit string comparison are
  modelled by per-character functions on the underlying character lists,
  which agree with JS on ASCII data.
* A JS `Map` preserves insertion order, so it is modelled by an
  association list upserted in order.
-/

set_option maxRecDepth 16000

namespace ClariFi

/-- Calendar date carried by a transaction (the fields the dashboard code
extracts from the date string via `getFullYear`/`getMonth`/`getDate`). -/
structure SimpleDate where
  year : Nat
  month : Nat
  day : Nat
deriving DecidableEq, Repr

/-- Transaction type enum from `lib/types.ts`: `'debit' | 'credit'`. -/
inductive TxType where
  | debit
  | credit
deriving DecidableEq, Repr

/-- The `Transaction` interface from `lib/types.ts`; `category` is optional. -/
structure Transaction where
  id : String
  date : SimpleDate
  description : String
  amount : Rat
  category : Option String
  type : TxType
deriving DecidableEq, Repr

/-- The `AnalyticsSummary` interface from `lib/types.ts`. -/
structure AnalyticsSummary where
  totalSpent : Rat
  totalIncome : Rat
  netAmount : Rat
  transactionCount : Nat
  avgTransactionAmount : Rat
deriving DecidableEq, Repr

/-- The `CategorySpending` interface from `lib/types.ts`. -/
structure CategorySpending where
  category : String
  amount : Rat
  count : Nat
  percentage : Rat
deriving DecidableEq, Repr

/-- The `TimelineData` interface from `lib/types.ts`; the human month label
`date` is represented by the year-month pair it is rendered from. -/
structure TimelineData where
  ym : Nat × Nat
  amount : Rat
  cumulative : Rat
deriving DecidableEq, Repr

/-- The defaulted category used by the dashboard:
`transaction.category || "Uncategorized"`. -/
def catOf (t : Transaction) : String := t.category.getD "Uncategorized"

/-- One `categoryMap.set` step of `categoryData`: add an absolute amount to
the entry of category `c` (JS `Map` keeps the key position) or append a new
entry `(c, a, 1)` (JS `Map` appends new keys in insertion order). -/
def upsertCat (m : List (String × Rat × Nat)) (c : String) (a : Rat) :
    List (String × Rat × Nat) :=
  match m with
  | [] => [(c, a, 1)]
  | e :: rest =>
    if e.1 = c then (e.1, e.2.1 + a, e.2.2 + 1) :: rest
    else e :: upsertCat rest c a

/-- The `categoryMap` built by `categoryData`: debit transactions only,
grouped by defaulted category, accumulating `Math.abs(transaction.amount)`
and a row count. -/
def buildCategoryMap (ts : List Transaction) : List (String × Rat × Nat) :=
  (ts.filter fun t => t.type == TxType.debit).foldl
    (fun m t => upsertCat m (catOf t) (abs t.amount)) []

/-- The comparator `(a, b) => b.amount - a.amount` of `categoryData` as the
"keep `a` before `b`" relation of a stable sort: `cmp(a,b) ≤ 0`. -/
def catDescRel (a b : CategorySpending) : Prop := b.amount ≤ a.amount

instance : DecidableRel catDescRel :=
  fun a b => inferInstanceAs (Decidable (b.amount ≤ a.amount))

instance : IsTotal CategorySpending catDescRel :=
  ⟨fun a b => le_total b.amount a.amount⟩

instance : IsTrans CategorySpending catDescRel :=
  ⟨fun _ _ _ h1 h2 => le_trans h2 h1⟩

/-- The `categoryData` memo of the analytics dashboard component. -/
def categoryData (ts : List Transaction) (s : AnalyticsSummary) :
    List CategorySpending :=
  let total := abs s.totalSpent
  List.insertionSort catDescRel
    ((buildCategoryMap ts).map fun e =>
      { category := e.1, amount := e.2.1, count := e.2.2,
        percentage := if 0 < total then e.2.1 / total * 100 else 0 })

/-- The month key `` `${date.getFullYear()}-${pad(date.getMonth()+1)}` `` of
`timelineData`, represented by the year-month pair the string encodes. -/
def monthKey (d : SimpleDate) : Nat × Nat := (d.year, d.month)

/-- One `monthlyMap.set` step of `timelineData`: add a signed amount to the
bucket of key `k`, or append a new bucket. -/
def upsertMonth (m : List ((Nat × Nat) × Rat)) (k : Nat × Nat) (a : Rat) :
    List ((Nat × Nat) × Rat) :=
  match m with
  | [] => [(k, a)]
  | e :: rest =>
    if e.1 = k then (e.1, e.2 + a) :: rest
    else e :: upsertMonth rest k a

/-- The `monthlyMap` of `timelineData`: all transactions, bucketed by
year-month, accumulating the signed `transaction.amount`. -/
def buildMonthlyMap (ts : List Transaction) : List ((Nat × Nat) × Rat) :=
  ts.foldl (fun m t => upsertMonth m (monthKey t.date) t.amount) []

/-- Ordering of year-month keys. For four-digit years this is exactly the
lexicographic string order the source's default `Array.sort()` applies to
the `"YYYY-MM"` keys (map keys are distinct, so the stringified value part
of an entry is never reached). -/
def ymLe (k1 k2 : Nat × Nat) : Prop :=
  k1.1 < k2.1 ∨ (k1.1 = k2.1 ∧ k1.2 ≤ k2.2)

/-- Strict version of `ymLe`, used to state sortedness of the timeline. -/
def ymLt (k1 k2 : Nat × Nat) : Prop :=
  k1.1 < k2.1 ∨ (k1.1 = k2.1 ∧ k1.2 < k2.2)

/-- The entry comparison of `Array.from(monthlyMap.entries()).sort()`. -/
def entryLe (e1 e2 : (Nat × Nat) × Rat) : Prop := ymLe e1.1 e2.1

instance : DecidableRel ymLe := fun k1 k2 => by
  unfold ymLe
  exact inferInstance

instance : DecidableRel ymLt := fun k1 k2 => by
  unfold ymLt
  exact inferInstance

instance : DecidableRel entryLe :=
  fun e1 e2 => inferInstanceAs (Decidable (ymLe e1.1 e2.1))

instance : IsTotal ((Nat × Nat) × Rat) entryLe :=
  ⟨fun e1 e2 => by unfold entryLe ymLe; omega⟩

instance : IsTrans ((Nat × Nat) × Rat) entryLe :=
  ⟨fun e1 e2 e3 h1 h2 => by
    unfold entryLe ymLe at *
    omega⟩

/-- The `cumulative += amount` pass of `timelineData`, mapping sorted
buckets to timeline points with a running total. -/
def cumulate : Rat → List ((Nat × Nat) × Rat) → List TimelineData
  | _, [] => []
  | c, e :: rest => ⟨e.1, e.2, c + e.2⟩ :: cumulate (c + e.2) rest

/-- The `timelineData` memo of the analytics dashboard component. -/
def timelineData (ts : List Transaction) : List TimelineData :=
  cumulate 0 (List.insertionSort entryLe (buildMonthlyMap ts))

/-- Model of JS `toLowerCase` on the character list of a string (agrees
with JS on ASCII input). -/
def lowerChars (s : String) : List Char := s.data.map Char.toLower

/-- Check that `pre` is a leading segment of `l` (character by character). -/
def charsStartWith : List Char → List Char → Bool
  | _, [] => true
  | [], _ :: _ => false
  | a :: as, b :: bs => a == b && charsStartWith as bs

/-- Model of JS `String.prototype.includes` on character lists. -/
def charsContain (needle : List Char) : List Char → Bool
  | [] => needle.isEmpty
  | a :: rest => charsStartWith (a :: rest) needle || charsContain needle rest

/-- The string of a transaction type, as stored in the JS `type` field. -/
def typeStr : TxType → String
  | .debit => "debit"
  | .credit => "credit"

/-- The `matchesSearch` conjunct of the table filter: empty search term, or
the lowercased term occurs in the lowercased description, or in the
lowercased category (`?? false` when the category is absent). -/
def matchesSearch (t : Transaction) (searchTerm : String) : Bool :=
  searchTerm == "" ||
    charsContain (lowerChars searchTerm) (lowerChars t.description) ||
    (match t.category with
     | some c => charsContain (lowerChars searchTerm) (lowerChars c)
     | none => false)

/-- The `matchesCategory` conjunct: empty filter, or strict equality with
the stored (optional) category. -/
def matchesCategory (t : Transaction) (categoryFilter : String) : Bool :=
  categoryFilter == "" ||
    (match t.category with
     | some c => c == categoryFilter
     | none => false)

/-- The `matchesType` conjunct: empty filter, or strict equality with the
transaction type string. -/
def matchesType (t : Transaction) (typeFilter : String) : Bool :=
  typeFilter == "" || typeStr t.type == typeFilter

/-- The filter stage of `filteredAndSorted`. -/
def filterTxs (ts : List Transaction) (searchTerm categoryFilter typeFilter : String) :
    List Transaction :=
  ts.filter fun t =>
    matchesSearch t searchTerm && matchesCategory t categoryFilter &&
      matchesType t typeFilter

/-- The `SortField` union type of the table component. -/
inductive SortField where
  | date
  | description
  | amount
  | category
deriving DecidableEq, Repr

/-- The `SortOrder` union type of the table component. -/
inductive SortOrder where
  | asc
  | desc
deriving DecidableEq, Repr

/-- Chronological comparison of dates, as produced by comparing
`new Date(value).getTime()` for valid dates. -/
def dateLe (d1 d2 : SimpleDate) : Prop :=
  d1.year < d2.year ∨
    (d1.year = d2.year ∧
      (d1.month < d2.month ∨ (d1.month = d2.month ∧ d1.day ≤ d2.day)))

instance : DecidableRel dateLe := fun d1 d2 => by
  unfold dateLe
  exact inferInstance

/-- Code-unit lexicographic `≤` on character lists, the order JS `<`/`>`
induce on strings. -/
def charsLe : List Char → List Char → Bool
  | [], _ => true
  | _ :: _, [] => false
  | a :: as, b :: bs => if a = b then charsLe as bs else decide (a < b)

/-- The sort key comparison of the table comparator, per field: dates by
chronological instant, amounts by absolute value, strings lowercased, a
missing category defaulted to the empty string by `a[sortField] || ""`. -/
def fieldLe (f : SortField) (a b : Transaction) : Prop :=
  match f with
  | .date => dateLe a.date b.date
  | .description => charsLe (lowerChars a.description) (lowerChars b.description) = true
  | .amount => abs a.amount ≤ abs b.amount
  | .category =>
      charsLe (lowerChars (a.category.getD "")) (lowerChars (b.category.getD "")) = true

/-- The table comparator as the "keep `a` before `b`" relation of a stable
sort (`cmp(a,b) ≤ 0`): key-le for ascending order, reversed for descending. -/
def jsSortRel (f : SortField) (o : SortOrder) (a b : Transaction) : Prop :=
  match o with
  | .asc => fieldLe f a b
  | .desc => fieldLe f b a

instance (f : SortField) (a b : Transaction) : Decidable (fieldLe f a b) := by
  unfold fieldLe
  cases f <;> exact inferInstance

instance (f : SortField) (o : SortOrder) : DecidableRel (jsSortRel f o) :=
  fun a b => by
    unfold jsSortRel
    cases o <;> exact inferInstance

/-- The `filteredAndSorted` memo of the table component: conjunctive
filtering followed by a stable sort with the field comparator. -/
def filteredAndSorted (ts : List Transaction)
    (searchTerm categoryFilter typeFilter : String)
    (f : SortField) (o : SortOrder) : List Transaction :=
  List.insertionSort (jsSortRel f o) (filterTxs ts searchTerm categoryFilter typeFilter)

/-- The `itemsPerPage` constant of the table component. -/
def itemsPerPage : Nat := 50

/-- The `totalPages` computation `Math.ceil(filteredAndSorted.length / itemsPerPage)`. -/
def totalPages (n : Nat) : Nat := (n + (itemsPerPage - 1)) / itemsPerPage

/-- Resolution of a JS `Array.prototype.slice` index against a length:
negative indices count from the end (clamped at 0), nonnegative ones are
clamped at the length. -/
def sliceIdx (len : Nat) (i : Int) : Nat :=
  if i < 0 then len - min len i.natAbs else min i.toNat len

/-- Model of JS `Array.prototype.slice(start, stop)`. -/
def jsSlice {α : Type} (l : List α) (start stop : Int) : List α :=
  (l.take (sliceIdx l.length stop)).drop (sliceIdx l.length start)

/-- The `paginatedTransactions` memo:
`filteredAndSorted.slice((currentPage - 1) * itemsPerPage, currentPage * itemsPerPage)`. -/
def paginatedTransactions (l : List Transaction) (page : Int) : List Transaction :=
  jsSlice l ((page - 1) * (itemsPerPage : Int)) (page * (itemsPerPage : Int))

/-- The page slices the table can show, for pages `1..totalPages`. -/
def pagesOf (l : List Transaction) : List (List Transaction) :=
  (List.range (totalPages l.length)).map fun k : Nat =>
    paginatedTransactions l ((k : Int) + 1)

/-- The `Previous` button handler: `setCurrentPage(p => Math.max(1, p - 1))`. -/
def prevPage (p : Int) : Int := max 1 (p - 1)

/-- The `Next` button handler: `setCurrentPage(p => Math.min(totalPages, p + 1))`. -/
def nextPage (tp p : Int) : Int := min tp (p + 1)

/-- A file as seen by the upload zone: its `name` and MIME `type`. -/
structure FileInfo where
  name : String
  type : String
deriving DecidableEq, Repr

/-- Suffix test on strings by character lists (model of JS `endsWith`). -/
def strEndsWith (s suf : String) : Bool :=
  charsStartWith s.data.reverse suf.data.reverse

/-- The CSV acceptance test of the upload zone:
`file.type === "text/csv" || file.name.toLowerCase().endsWith(".csv")`. -/
def isCsvFile (f : FileInfo) : Bool :=
  f.type == "text/csv" || strEndsWith (String.mk (lowerChars f.name)) ".csv"

/-- The inline validation message of the upload zone. -/
def csvErrorMsg : String := "Please upload a valid CSV file"

/-- The state of the upload zone component relevant to validation: the
selected file and the inline error message. -/
structure UploadState where
  file : Option FileInfo
  error : Option String
deriving DecidableEq, Repr

/-- Initial upload zone state: `useState<File | null>(null)`, no error. -/
def initUploadState : UploadState := ⟨none, none⟩

/-- The `handleFileSelect` callback: accept a CSV file (clearing the error),
otherwise set the inline error and leave the stored file unchanged. -/
def handleFileSelect (st : UploadState) (sel : Option FileInfo) : UploadState :=
  match sel with
  | none => st
  | some f =>
    if isCsvFile f then { st with file := some f, error := none }
    else { st with error := some csvErrorMsg }

/-- The `handleDrop` callback: pick the first CSV file among the dropped
ones, otherwise set the inline error. -/
def handleDrop (st : UploadState) (files : List FileInfo) : UploadState :=
  match files.find? isCsvFile with
  | some f => { st with file := some f, error := none }
  | none => { st with error := some csvErrorMsg }

/-- The user events the upload zone reacts to. -/
inductive UploadEvent where
  | select (sel : Option FileInfo)
  | drop (files : List FileInfo)
  | removeFile
  | upload

/-- One step of the upload zone: the next state, plus the file posted to
the network by this step, if any (only `handleUpload` posts, and only when
a file is stored). -/
def stepUpload (st : UploadState) : UploadEvent → UploadState × Option FileInfo
  | .select sel => (handleFileSelect st sel, none)
  | .drop files => (handleDrop st files, none)
  | .removeFile => (⟨none, none⟩, none)
  | .upload =>
    match st.file with
    | none => (st, none)
    | some f => ({ st with error := none }, some f)

/-- Run a sequence of upload zone events, collecting every file posted to
the network. -/
def runUpload : UploadState → List UploadEvent → UploadState × List FileInfo
  | st, [] => (st, [])
  | st, e :: rest =>
    let step := stepUpload st e
    let next := runUpload step.1 rest
    (next.1, step.2.toList ++ next.2)

/-- The JSON error payload fields `handleResponse` looks for. -/
structure ErrorBody where
  message : Option String
  detail : Option String
deriving DecidableEq, Repr

/-- An HTTP response as consumed by `handleResponse`: status, status text,
`content-type` header, the result of attempting to parse the body as JSON
(`none` when parsing fails), and the raw body text. -/
structure HttpResponse where
  status : Nat
  statusText : String
  contentType : Option String
  jsonBody : Option ErrorBody
  textBody : String
deriving DecidableEq, Repr

/-- The `ApiError` class: a typed error carrying the numeric status and the
resolved message. -/
structure ApiError where
  status : Nat
  message : String
deriving DecidableEq, Repr

/-- The value a successful `handleResponse` resolves to: structured JSON
data or raw text. -/
inductive ResponseData where
  | jsonData (body : Option ErrorBody)
  | textData (raw : String)
deriving DecidableEq, Repr

/-- JS `x || y` on an optional string: an absent or empty string falls
through to the fallback. -/
def jsOrStr (v : Option String) (fallback : String) : String :=
  match v with
  | some s => if s = "" then fallback else s
  | none => fallback

/-- The error message resolution of `handleResponse` for a non-2xx
response: start from `` `HTTP ${status}` ``, prefer `message` then `detail`
from a parsed JSON body, and fall back to `statusText` when parsing fails. -/
def resolveErrorMessage (r : HttpResponse) : String :=
  let base := "HTTP " ++ toString r.status
  match r.jsonBody with
  | some body => jsOrStr body.message (jsOrStr body.detail base)
  | none => if r.statusText = "" then base else r.statusText

/-- The shared `handleResponse` of the API client: non-2xx responses raise
`ApiError`; 2xx responses decode as JSON exactly when the `content-type`
header contains `application/json`, and resolve to raw text otherwise. -/
def handleResponse (r : HttpResponse) : Except ApiError ResponseData :=
  if 200 ≤ r.status ∧ r.status < 300 then
    match r.contentType with
    | some ct =>
      if charsContain "application/json".data ct.data then
        Except.ok (ResponseData.jsonData r.jsonBody)
      else Except.ok (ResponseData.textData r.textBody)
    | none => Except.ok (ResponseData.textData r.textBody)
  else Except.error ⟨r.status, resolveErrorMessage r⟩

/-- Association list lookup for the category map (mirrors `Map.get`). -/
def lookupCat (m : List (String × Rat × Nat)) (c : String) : Option (Rat × Nat) :=
  match m with
  | [] => none
  | e :: rest => if e.1 = c then some e.2 else lookupCat rest c

/-- Association list lookup for the monthly map (mirrors `Map.get`). -/
def lookupMonth (m : List ((Nat × Nat) × Rat)) (k : Nat × Nat) : Option Rat :=
  match m with
  | [] => none
  | e :: rest => if e.1 = k then some e.2 else lookupMonth rest k

/-- Specification-side value: the sum of `|amount|` over the debit
transactions of a list whose defaulted category is `c`. -/
def specDebitAbsSum (ts : List Transaction) (c : String) : Rat :=
  ((ts.filter fun t => t.type == TxType.debit && catOf t == c).map
    fun t => abs t.amount).sum

/-- Specification-side value: the number of debit transactions of a list
whose defaulted category is `c`. -/
def specDebitCount (ts : List Transaction) (c : String) : Nat :=
  (ts.filter fun t => t.type == TxType.debit && catOf t == c).length

/-- Specification-side value: the total of `|amount|` over all debit
transactions of a list. -/
def specDebitTotal (ts : List Transaction) : Rat :=
  ((ts.filter fun t => t.type == TxType.debit).map fun t => abs t.amount).sum

/-- Specification-side value: the signed sum of the amounts of the
transactions falling in month `k`. -/
def specMonthSum (ts : List Transaction) (k : Nat × Nat) : Rat :=
  ((ts.filter fun t => monthKey t.date == k).map fun t => t.amount).sum

/-- Sum of `|amount|` over the transactions of a list with defaulted
category `c` (helper for reasoning about the category map fold). -/
def sumAbsCat (l : List Transaction) (c : String) : Rat :=
  ((l.filter fun t => catOf t == c).map fun t => abs t.amount).sum

/-- Number of transactions of a list with defaulted category `c`. -/
def cntCat (l : List Transaction) (c : String) : Nat :=
  (l.filter fun t => catOf t == c).length

/-- The keys of a category map, in order. -/
def keysOfCat (m : List (String × Rat × Nat)) : List String := m.map fun e => e.1

/-- The keys of a monthly map, in order. -/
def keysOfMonth (m : List ((Nat × Nat) × Rat)) : List (Nat × Nat) :=
  m.map fun e => e.1

/-- Number of transactions of a list falling in month `k`. -/
def cntMonth (l : List Transaction) (k : Nat × Nat) : Nat :=
  (l.filter fun t => monthKey t.date == k).length

/-- The single debit transaction of the C6 counterexample. -/
def c6Tx : Transaction :=
  ⟨"1", ⟨2024, 1, 1⟩, "Rent", -100, some "Housing", TxType.debit⟩

/-- A summary whose `totalSpent` is positive but smaller than the debit
total of `[c6Tx]`. -/
def c6Summary : AnalyticsSummary := ⟨1, 0, -100, 1, 100⟩

/-- Three transactions in two months, inserted with February first, used to
exercise the timeline aggregation. -/
def c2Txs : List Transaction :=
  [⟨"1", ⟨2024, 2, 1⟩, "Hardware Store", -10, some "Home", TxType.debit⟩,
   ⟨"2", ⟨2024, 1, 5⟩, "Refund", 20, none, TxType.credit⟩,
   ⟨"3", ⟨2024, 2, 9⟩, "Interest", 5, none, TxType.credit⟩]

/-- A transaction whose description contains "grocery" case-insensitively. -/
def groceryTx : Transaction :=
  ⟨"g1", ⟨2024, 1, 15⟩, "Grocery Store", -85.5, some "Food", TxType.debit⟩

/-- A transaction with description "Gas Station" and no matching category
text. -/
def gasTx : Transaction :=
  ⟨"g2", ⟨2024, 1, 13⟩, "Gas Station", -45.25, some "Transportation", TxType.debit⟩

/-- A transaction with an absent category. -/
def uncatTx : Transaction :=
  ⟨"u1", ⟨2024, 3, 2⟩, "Mystery Charge", -12.5, none, TxType.debit⟩

/-- The 400 response of the spec scenario: JSON body with only a `detail`
field carrying "Invalid file format". -/
def c5Response : HttpResponse :=
  ⟨400, "Bad Request", some "application/json",
    some ⟨none, some "Invalid file format"⟩, ""⟩

/-- A 200 JSON response used as a success-path witness. -/
def c5OkResponse : HttpResponse :=
  ⟨200, "OK", some "application/json; charset=utf-8", some ⟨some "ok", none⟩, ""⟩

/-- A debit of −500, equal-ranked with `txPos500` under amount sorting. -/
def txNeg500 : Transaction :=
  ⟨"m1", ⟨2024, 1, 3⟩, "Rent", -500, some "Housing", TxType.debit⟩

/-- A credit of 500, equal-ranked with `txNeg500` under amount sorting. -/
def txPos500 : Transaction :=
  ⟨"m2", ⟨2024, 1, 9⟩, "Paycheck", 500, none, TxType.credit⟩

/-- The four transactions of the spec scenario (2024-01-12/13/14/15,
amounts −5.75 / −45.25 / 2500.00 / −85.50, categories
Food / Transportation / Income / Food, types debit/debit/credit/debit). -/
def scenarioTxs : List Transaction :=
  [⟨"1", ⟨2024, 1, 12⟩, "Coffee Shop", -5.75, some "Food", TxType.debit⟩,
   ⟨"2", ⟨2024, 1, 13⟩, "Gas Station", -45.25, some "Transportation", TxType.debit⟩,
   ⟨"3", ⟨2024, 1, 14⟩, "Salary", 2500.00, some "Income", TxType.credit⟩,
   ⟨"4", ⟨2024, 1, 15⟩, "Grocery Store", -85.50, some "Food", TxType.debit⟩]

/-- A summary consistent with the scenario transactions (the scenario facts
proved about `categoryData` do not depend on its values). -/
def scenarioSummary : AnalyticsSummary :=
  ⟨136.5, 2500, 2363.5, 4, 659.125⟩

/-- The Food entry the category aggregation produces on the scenario. -/
def scenarioFoodEntry : CategorySpending :=
  { category := "Food", amount := 91.25, count := 2,
    percentage := (91.25 : Rat) / 136.5 * 100 }

theorem lookupCat_upsert_self (m : List (String × Rat × Nat)) (c : String) (a : Rat) :
    lookupCat (upsertCat m c a) c =
      some ((lookupCat m c).elim (a, 1) fun p => (p.1 + a, p.2 + 1)) := by
  induction m with
  | nil => simp [upsertCat, lookupCat]
  | cons e rest ih =>
    by_cases h : e.1 = c
    · simp [upsertCat, lookupCat, h]
    · simp [upsertCat, lookupCat, h, ih]

theorem lookupCat_upsert_ne (m : List (String × Rat × Nat)) {c c' : String} (a : Rat)
    (h : c' ≠ c) : lookupCat (upsertCat m c a) c' = lookupCat m c' := by
  induction m with
  | nil => simp [upsertCat, lookupCat, h, Ne.symm h]
  | cons e rest ih =>
    by_cases he : e.1 = c
    · have hec : e.1 ≠ c' := by rw [he]; exact fun hh => h hh.symm
      simp [upsertCat, lookupCat, he, hec, h, Ne.symm h]
    · by_cases he' : e.1 = c'
      · simp [upsertCat, lookupCat, he, he', h, Ne.symm h]
      · simp [upsertCat, lookupCat, he, he', ih]

theorem sumAbsCat_cons (t : Transaction) (l : List Transaction) (c : String) :
    sumAbsCat (t :: l) c =
      if catOf t = c then abs t.amount + sumAbsCat l c else sumAbsCat l c := by
  by_cases h : catOf t = c <;> simp [sumAbsCat, List.filter_cons, h]

theorem cntCat_cons (t : Transaction) (l : List Transaction) (c : String) :
    cntCat (t :: l) c = if catOf t = c then cntCat l c + 1 else cntCat l c := by
  by_cases h : catOf t = c <;> simp [cntCat, List.filter_cons, h]

theorem lookupCat_fold (l : List Transaction) :
    ∀ (m : List (String × Rat × Nat)) (c : String),
      lookupCat (l.foldl (fun m t => upsertCat m (catOf t) (abs t.amount)) m) c =
        match lookupCat m c with
        | some p => some (p.1 + sumAbsCat l c, p.2 + cntCat l c)
        | none => if cntCat l c = 0 then none else some (sumAbsCat l c, cntCat l c) := by
  induction l with
  | nil =>
    intro m c
    cases h : lookupCat m c <;> simp [sumAbsCat, cntCat, h]
  | cons t rest ih =>
    intro m c
    rw [List.foldl_cons, ih]
    by_cases hc : catOf t = c
    · subst hc
      rw [lookupCat_upsert_self]
      cases h : lookupCat m (catOf t) with
      | none =>
        rw [sumAbsCat_cons, cntCat_cons, if_pos rfl, if_pos rfl]
        have hne : cntCat rest (catOf t) + 1 ≠ 0 := by omega
        simp [h, hne, add_comm]
      | some p =>
        rw [sumAbsCat_cons, cntCat_cons, if_pos rfl, if_pos rfl]
        simp only [h, Option.elim, Option.some.injEq, Prod.mk.injEq]
        exact ⟨by ring, by omega⟩
    · rw [lookupCat_upsert_ne m _ fun hh => hc hh.symm]
      simp [sumAbsCat_cons, cntCat_cons, hc]

theorem sumAbsCat_filter_debit (ts : List Transaction) (c : String) :
    sumAbsCat (ts.filter fun t => t.type == TxType.debit) c = specDebitAbsSum ts c := by
  unfold sumAbsCat specDebitAbsSum
  rw [List.filter_filter]
  congr 1
  exact congrArg _ (List.filter_congr fun t _ => by rw [Bool.and_comm])

theorem cntCat_filter_debit (ts : List Transaction) (c : String) :
    cntCat (ts.filter fun t => t.type == TxType.debit) c = specDebitCount ts c := by
  unfold cntCat specDebitCount
  rw [List.filter_filter]
  exact congrArg _ (List.filter_congr fun t _ => by rw [Bool.and_comm])

theorem lookupCat_build (ts : List Transaction) (c : String) :
    lookupCat (buildCategoryMap ts) c =
      if specDebitCount ts c = 0 then none
      else some (specDebitAbsSum ts c, specDebitCount ts c) := by
  have h := lookupCat_fold (ts.filter fun t => t.type == TxType.debit) [] c
  simp only [lookupCat] at h
  rw [buildCategoryMap, h, sumAbsCat_filter_debit, cntCat_filter_debit]

theorem keysOfCat_cons (e : String × Rat × Nat) (l : List (String × Rat × Nat)) :
    keysOfCat (e :: l) = e.1 :: keysOfCat l := rfl

theorem keysOfCat_upsert (m : List (String × Rat × Nat)) (c : String) (a : Rat) :
    keysOfCat (upsertCat m c a) =
      if c ∈ keysOfCat m then keysOfCat m else keysOfCat m ++ [c] := by
  induction m with
  | nil => simp [upsertCat, keysOfCat]
  | cons e rest ih =>
    by_cases h : e.1 = c
    · rw [upsertCat, if_pos h, keysOfCat_cons, keysOfCat_cons,
        if_pos (h ▸ List.mem_cons_self e.1 (keysOfCat rest))]
    · have hcn : ¬c = e.1 := fun hh => h hh.symm
      rw [upsertCat, if_neg h, keysOfCat_cons, keysOfCat_cons, ih]
      by_cases h2 : c ∈ keysOfCat rest
      · rw [if_pos h2, if_pos (List.mem_cons_of_mem _ h2)]
      · rw [if_neg h2, if_neg (by simp [List.mem_cons, h2, hcn]), List.cons_append]

theorem keysOfCat_fold_nodup (l : List Transaction) :
    ∀ m : List (String × Rat × Nat), (keysOfCat m).Nodup →
      (keysOfCat (l.foldl (fun m t => upsertCat m (catOf t) (abs t.amount)) m)).Nodup := by
  induction l with
  | nil => intro m h; simpa using h
  | cons t rest ih =>
    intro m h
    rw [List.foldl_cons]
    apply ih
    rw [keysOfCat_upsert]
    split_ifs with hm
    · exact h
    · simp [List.nodup_append, h, hm]

theorem buildCategoryMap_keys_nodup (ts : List Transaction) :
    (keysOfCat (buildCategoryMap ts)).Nodup :=
  keysOfCat_fold_nodup _ [] (by simp [keysOfCat])

theorem mem_keysOfCat_iff (m : List (String × Rat × Nat)) (c : String) :
    c ∈ keysOfCat m ↔ lookupCat m c ≠ none := by
  induction m with
  | nil => simp [keysOfCat, lookupCat]
  | cons e rest ih =>
    rw [keysOfCat_cons, lookupCat]
    by_cases h : e.1 = c
    · simp [h]
    · have hcn : ¬c = e.1 := fun hh => h hh.symm
      rw [if_neg h, List.mem_cons, ih]
      simp [hcn]

theorem lookupCat_of_mem_nodup :
    ∀ {m : List (String × Rat × Nat)}, (keysOfCat m).Nodup →
      ∀ {e : String × Rat × Nat}, e ∈ m → lookupCat m e.1 = some e.2 := by
  intro m
  induction m with
  | nil => intro _ e he; simp at he
  | cons f rest ih =>
    intro hnd e he
    rw [keysOfCat_cons] at hnd
    have hnd' : (keysOfCat rest).Nodup ∧ f.1 ∉ keysOfCat rest := by
      have hsplit := List.nodup_cons.mp hnd
      exact ⟨hsplit.2, hsplit.1⟩
    rcases List.mem_cons.mp he with rfl | hmem
    · simp [lookupCat]
    · have hne : ¬f.1 = e.1 := by
        intro hEq
        exact hnd'.2 (hEq ▸ List.mem_map_of_mem (fun x => x.1) hmem)
      simp [lookupCat, hne, ih hnd'.1 hmem]

theorem mem_of_lookupCat :
    ∀ {m : List (String × Rat × Nat)} {c : String} {p : Rat × Nat},
      lookupCat m c = some p → (c, p) ∈ m := by
  intro m
  induction m with
  | nil => intro c p h; simp [lookupCat] at h
  | cons e rest ih =>
    intro c p h
    rw [lookupCat] at h
    split_ifs at h with he
    · obtain rfl : e.2 = p := Option.some.inj h
      exact he ▸ List.mem_cons_self e rest
    · exact List.mem_cons_of_mem e (ih h)

theorem specDebitCount_ne_zero_iff (ts : List Transaction) (c : String) :
    specDebitCount ts c ≠ 0 ↔ ∃ t ∈ ts, t.type = TxType.debit ∧ catOf t = c := by
  unfold specDebitCount
  rw [ne_eq, List.length_eq_zero]
  constructor
  · intro h
    rcases List.exists_mem_of_ne_nil _ h with ⟨t, ht⟩
    have := List.mem_filter.mp ht
    refine ⟨t, this.1, ?_⟩
    have hb := this.2
    simp only [Bool.and_eq_true, beq_iff_eq] at hb
    exact hb
  · rintro ⟨t, ht, hd, hc⟩ hnil
    have : t ∈ (ts.filter fun t => t.type == TxType.debit && catOf t == c) :=
      List.mem_filter.mpr ⟨ht, by simp [hd, hc]⟩
    simp [hnil] at this

theorem categoryData_entry (ts : List Transaction) (s : AnalyticsSummary)
    {e : CategorySpending} (he : e ∈ categoryData ts s) :
    e.amount = specDebitAbsSum ts e.category ∧
      e.count = specDebitCount ts e.category ∧
      e.percentage =
        (if 0 < abs s.totalSpent then e.amount / abs s.totalSpent * 100 else 0) := by
  unfold categoryData at he
  rw [List.mem_insertionSort] at he
  obtain ⟨x, hx, rfl⟩ := List.mem_map.mp he
  have hl := lookupCat_of_mem_nodup (buildCategoryMap_keys_nodup ts) hx
  rw [lookupCat_build] at hl
  by_cases h0 : specDebitCount ts x.1 = 0
  · rw [if_pos h0] at hl
    exact absurd hl (by simp)
  · rw [if_neg h0] at hl
    have hx2 : x.2 = (specDebitAbsSum ts x.1, specDebitCount ts x.1) :=
      (Option.some.inj hl).symm
    refine ⟨?_, ?_, rfl⟩
    · show x.2.1 = specDebitAbsSum ts x.1
      rw [hx2]
    · show x.2.2 = specDebitCount ts x.1
      rw [hx2]

theorem categoryData_mem_category (ts : List Transaction) (s : AnalyticsSummary)
    (c : String) :
    (∃ e ∈ categoryData ts s, e.category = c) ↔
      ∃ t ∈ ts, t.type = TxType.debit ∧ catOf t = c := by
  rw [← specDebitCount_ne_zero_iff]
  unfold categoryData
  constructor
  · rintro ⟨e, he, hc⟩
    rw [List.mem_insertionSort] at he
    obtain ⟨x, hx, rfl⟩ := List.mem_map.mp he
    have hl := lookupCat_of_mem_nodup (buildCategoryMap_keys_nodup ts) hx
    rw [lookupCat_build] at hl
    intro h0
    have hc' : x.1 = c := hc
    rw [if_pos (hc' ▸ h0)] at hl
    exact absurd hl (by simp)
  · intro h0
    refine ⟨{ category := c, amount := specDebitAbsSum ts c,
              count := specDebitCount ts c,
              percentage := if 0 < abs s.totalSpent then
                specDebitAbsSum ts c / abs s.totalSpent * 100 else 0 }, ?_, rfl⟩
    rw [List.mem_insertionSort]
    apply List.mem_map.mpr
    refine ⟨(c, specDebitAbsSum ts c, specDebitCount ts c), ?_, rfl⟩
    apply mem_of_lookupCat
    rw [lookupCat_build, if_neg h0]

theorem categoryData_def (ts : List Transaction) (s : AnalyticsSummary) :
    categoryData ts s =
      List.insertionSort catDescRel ((buildCategoryMap ts).map fun e =>
        ({ category := e.1, amount := e.2.1, count := e.2.2,
           percentage := if 0 < abs s.totalSpent then e.2.1 / abs s.totalSpent * 100
             else 0 } : CategorySpending)) := rfl

theorem categoryData_categories_nodup (ts : List Transaction) (s : AnalyticsSummary) :
    ((categoryData ts s).map fun e => e.category).Nodup := by
  rw [categoryData_def]
  have hp := (List.perm_insertionSort catDescRel
    ((buildCategoryMap ts).map fun e =>
      ({ category := e.1, amount := e.2.1, count := e.2.2,
         percentage := if 0 < abs s.totalSpent then e.2.1 / abs s.totalSpent * 100
           else 0 } : CategorySpending))).map (fun e : CategorySpending => e.category)
  refine hp.nodup_iff.mpr ?_
  rw [List.map_map]
  exact buildCategoryMap_keys_nodup ts

theorem categoryData_sorted (ts : List Transaction) (s : AnalyticsSummary) :
    (categoryData ts s).Pairwise catDescRel := by
  unfold categoryData
  exact List.sorted_insertionSort catDescRel _

/-- C1: the category aggregation considers only debit transactions, groups
them by category with absent category replaced by "Uncategorized", outputs
per group the sum of `|amount|`, the row count, and
`percentage = amount / |totalSpent| * 100` (0 when `totalSpent = 0`), with
one entry per occurring category and the output sorted descending by
amount; on the 4-transaction scenario it yields Food (91.25, 2) before
Transportation (45.25, 1). -/
theorem claim_C1 :
    (∀ (ts : List Transaction) (s : AnalyticsSummary),
        (∀ e ∈ categoryData ts s,
            e.amount = specDebitAbsSum ts e.category ∧
            e.count = specDebitCount ts e.category ∧
            e.percentage =
              (if s.totalSpent = 0 then 0 else e.amount / abs s.totalSpent * 100)) ∧
        (∀ c : String, (∃ e ∈ categoryData ts s, e.category = c) ↔
            ∃ t ∈ ts, t.type = TxType.debit ∧ catOf t = c) ∧
        ((categoryData ts s).map fun e => e.category).Nodup ∧
        (categoryData ts s).Pairwise fun a b => b.amount ≤ a.amount) ∧
    (categoryData scenarioTxs scenarioSummary).map
        (fun e => (e.category, e.amount, e.count)) =
      [("Food", 91.25, 2), ("Transportation", 45.25, 1)] := by
  constructor
  · intro ts s
    refine ⟨?_, categoryData_mem_category ts s, categoryData_categories_nodup ts s,
      categoryData_sorted ts s⟩
    intro e he
    obtain ⟨h1, h2, h3⟩ := categoryData_entry ts s he
    refine ⟨h1, h2, ?_⟩
    rw [h3]
    by_cases h0 : s.totalSpent = 0
    · simp [h0]
    · rw [if_neg h0, if_pos (abs_pos.mpr h0)]
  · have hbcm : buildCategoryMap scenarioTxs =
        [("Food", (91.25 : Rat), 2), ("Transportation", 45.25, 1)] := by
      norm_num +decide [buildCategoryMap, scenarioTxs, upsertCat, catOf, abs_of_pos,
        abs_of_neg]
    rw [categoryData_def, hbcm]
    norm_num +decide [List.insertionSort, List.orderedInsert, catDescRel,
      scenarioSummary, abs_of_pos]

/-- Witness for C1: the Food entry of the scenario is in the aggregation
output, and the theorem instantiated at it gives its amount. -/
theorem claim_C1_witness :
    scenarioFoodEntry ∈ categoryData scenarioTxs scenarioSummary ∧
      specDebitAbsSum scenarioTxs "Food" = 91.25 := by
  have hbcm : buildCategoryMap scenarioTxs =
      [("Food", (91.25 : Rat), 2), ("Transportation", 45.25, 1)] := by
    norm_num +decide [buildCategoryMap, scenarioTxs, upsertCat, catOf, abs_of_pos,
      abs_of_neg]
  have hmem : scenarioFoodEntry ∈ categoryData scenarioTxs scenarioSummary := by
    rw [categoryData_def, hbcm]
    norm_num +decide [List.insertionSort, List.orderedInsert, catDescRel,
      scenarioSummary, scenarioFoodEntry, abs_of_pos]
  refine ⟨hmem, ?_⟩
  have h := ((claim_C1.1 scenarioTxs scenarioSummary).1 _ hmem).1
  exact h.symm

theorem sum_amounts_upsert (m : List (String × Rat × Nat)) (c : String) (a : Rat) :
    ((upsertCat m c a).map fun e => e.2.1).sum = ((m.map fun e => e.2.1).sum) + a := by
  induction m with
  | nil => simp [upsertCat]
  | cons e rest ih =>
    by_cases h : e.1 = c
    · simp [upsertCat, h]
      ring
    · simp [upsertCat, h, ih]
      ring

theorem sum_amounts_fold (l : List Transaction) :
    ∀ m : List (String × Rat × Nat),
      (((l.foldl (fun m t => upsertCat m (catOf t) (abs t.amount)) m).map
        fun e => e.2.1).sum) =
        ((m.map fun e => e.2.1).sum) + ((l.map fun t => abs t.amount).sum) := by
  induction l with
  | nil => intro m; simp
  | cons t rest ih =>
    intro m
    rw [List.foldl_cons, ih, sum_amounts_upsert]
    simp
    ring

theorem buildCategoryMap_sum (ts : List Transaction) :
    ((buildCategoryMap ts).map fun e => e.2.1).sum = specDebitTotal ts := by
  rw [buildCategoryMap, sum_amounts_fold]
  simp [specDebitTotal]

theorem specDebitTotal_nonneg (ts : List Transaction) : 0 ≤ specDebitTotal ts := by
  apply List.sum_nonneg
  intro x hx
  obtain ⟨t, _, rfl⟩ := List.mem_map.mp hx
  exact abs_nonneg t.amount

theorem categoryData_pct_sum (ts : List Transaction) (s : AnalyticsSummary) :
    ((categoryData ts s).map fun e => e.percentage).sum =
      if s.totalSpent = 0 then 0 else specDebitTotal ts / abs s.totalSpent * 100 := by
  rw [categoryData_def]
  have hperm := (List.perm_insertionSort catDescRel
    ((buildCategoryMap ts).map fun e =>
      ({ category := e.1, amount := e.2.1, count := e.2.2,
         percentage := if 0 < abs s.totalSpent then e.2.1 / abs s.totalSpent * 100
           else 0 } : CategorySpending))).map (fun e : CategorySpending => e.percentage)
  rw [hperm.sum_eq, List.map_map]
  by_cases h0 : s.totalSpent = 0
  · rw [if_pos h0]
    have habs : abs s.totalSpent = 0 := by rw [h0, abs_zero]
    simp only [habs, lt_irrefl, if_neg]
    apply List.sum_eq_zero
    intro x hx
    obtain ⟨e, _, rfl⟩ := List.mem_map.mp hx
    simp
  · rw [if_neg h0]
    have hpos : 0 < abs s.totalSpent := abs_pos.mpr h0
    have hfun : ((fun e : CategorySpending => e.percentage) ∘ fun e : String × Rat × Nat =>
        ({ category := e.1, amount := e.2.1, count := e.2.2,
           percentage := if 0 < abs s.totalSpent then e.2.1 / abs s.totalSpent * 100
             else 0 } : CategorySpending)) =
        fun e : String × Rat × Nat => e.2.1 * (100 / abs s.totalSpent) := by
      funext e
      simp only [Function.comp]
      rw [if_pos hpos]
      ring
    rw [hfun, List.sum_map_mul_right, buildCategoryMap_sum]
    ring

/-- Counterexample for C6: with one debit of amount −100 and a summary
whose `totalSpent` is 1 (positive), the single percentage is 10000, so the
percentages do not sum to at most 100. -/
theorem claim_C6_counterexample :
    0 < c6Summary.totalSpent ∧
      ¬ ((categoryData [c6Tx] c6Summary).map fun e => e.percentage).sum ≤ 100 := by
  have hbcm : buildCategoryMap [c6Tx] = [("Housing", (100 : Rat), 1)] := by
    norm_num +decide [buildCategoryMap, c6Tx, upsertCat, catOf, abs_of_neg]
  constructor
  · norm_num [c6Summary]
  · rw [categoryData_def, hbcm]
    norm_num +decide [List.insertionSort, List.orderedInsert, c6Summary, abs_of_pos]

/-- C6 amended: every percentage is 0 when `totalSpent = 0`, the
percentages always sum to exactly `debitTotal / |totalSpent| * 100`, and
they sum to at most 100 whenever the summary is consistent enough that
`|totalSpent|` is at least the debit total (the percentage computation
never divides by zero, but an arbitrary summary input can make the sum
exceed 100). -/
theorem claim_C6_amended :
    ∀ (ts : List Transaction) (s : AnalyticsSummary),
      (s.totalSpent = 0 → ∀ e ∈ categoryData ts s, e.percentage = 0) ∧
      ((categoryData ts s).map fun e => e.percentage).sum =
        (if s.totalSpent = 0 then 0 else specDebitTotal ts / abs s.totalSpent * 100) ∧
      (s.totalSpent ≠ 0 → specDebitTotal ts ≤ abs s.totalSpent →
        ((categoryData ts s).map fun e => e.percentage).sum ≤ 100) := by
  intro ts s
  refine ⟨?_, categoryData_pct_sum ts s, ?_⟩
  · intro h0 e he
    have h := (categoryData_entry ts s he).2.2
    have habs : ¬(0 : Rat) < abs s.totalSpent := by
      rw [h0, abs_zero]
      exact lt_irrefl 0
    rw [if_neg habs] at h
    exact h
  · intro h0 hle
    rw [categoryData_pct_sum, if_neg h0]
    have hpos : 0 < abs s.totalSpent := abs_pos.mpr h0
    have h1 : specDebitTotal ts / abs s.totalSpent ≤ 1 :=
      (div_le_one hpos).mpr hle
    calc specDebitTotal ts / abs s.totalSpent * 100 ≤ 1 * 100 :=
          mul_le_mul_of_nonneg_right h1 (by norm_num)
      _ = 100 := one_mul 100

/-- Witness for the amended C6 at the scenario data: the debit total equals
`136.5 = |totalSpent|`, so the percentages sum to at most 100. -/
theorem claim_C6_witness :
    ((categoryData scenarioTxs scenarioSummary).map fun e => e.percentage).sum ≤ 100 := by
  refine (claim_C6_amended scenarioTxs scenarioSummary).2.2 ?_ ?_
  · norm_num [scenarioSummary]
  · norm_num +decide [specDebitTotal, scenarioTxs, scenarioSummary, abs_of_neg, abs_of_pos]

theorem lookupMonth_upsert_self (m : List ((Nat × Nat) × Rat)) (k : Nat × Nat) (a : Rat) :
    lookupMonth (upsertMonth m k a) k =
      some ((lookupMonth m k).elim a fun b => b + a) := by
  induction m with
  | nil => simp [upsertMonth, lookupMonth]
  | cons e rest ih =>
    by_cases h : e.1 = k
    · simp [upsertMonth, lookupMonth, h]
    · simp [upsertMonth, lookupMonth, h, ih]

theorem lookupMonth_upsert_ne (m : List ((Nat × Nat) × Rat)) {k k' : Nat × Nat} (a : Rat)
    (h : k' ≠ k) : lookupMonth (upsertMonth m k a) k' = lookupMonth m k' := by
  induction m with
  | nil => simp [upsertMonth, lookupMonth, h, Ne.symm h]
  | cons e rest ih =>
    by_cases he : e.1 = k
    · have hek : e.1 ≠ k' := by rw [he]; exact fun hh => h hh.symm
      simp [upsertMonth, lookupMonth, he, hek, h, Ne.symm h]
    · by_cases he' : e.1 = k'
      · simp [upsertMonth, lookupMonth, he, he', h, Ne.symm h]
      · simp [upsertMonth, lookupMonth, he, he', ih]

theorem specMonthSum_cons (t : Transaction) (l : List Transaction) (k : Nat × Nat) :
    specMonthSum (t :: l) k =
      if monthKey t.date = k then t.amount + specMonthSum l k else specMonthSum l k := by
  by_cases h : monthKey t.date = k <;> simp [specMonthSum, List.filter_cons, h]

theorem cntMonth_cons (t : Transaction) (l : List Transaction) (k : Nat × Nat) :
    cntMonth (t :: l) k =
      if monthKey t.date = k then cntMonth l k + 1 else cntMonth l k := by
  by_cases h : monthKey t.date = k <;> simp [cntMonth, List.filter_cons, h]

theorem lookupMonth_fold (l : List Transaction) :
    ∀ (m : List ((Nat × Nat) × Rat)) (k : Nat × Nat),
      lookupMonth (l.foldl (fun m t => upsertMonth m (monthKey t.date) t.amount) m) k =
        match lookupMonth m k with
        | some b => some (b + specMonthSum l k)
        | none => if cntMonth l k = 0 then none else some (specMonthSum l k) := by
  induction l with
  | nil =>
    intro m k
    cases h : lookupMonth m k <;> simp [specMonthSum, cntMonth, h]
  | cons t rest ih =>
    intro m k
    rw [List.foldl_cons, ih]
    by_cases hk : monthKey t.date = k
    · subst hk
      rw [lookupMonth_upsert_self]
      cases h : lookupMonth m (monthKey t.date) with
      | none =>
        rw [specMonthSum_cons, cntMonth_cons, if_pos rfl, if_pos rfl]
        have hne : cntMonth rest (monthKey t.date) + 1 ≠ 0 := by omega
        simp [h, hne]
      | some b =>
        rw [specMonthSum_cons, cntMonth_cons, if_pos rfl, if_pos rfl]
        simp only [h, Option.elim, Option.some.injEq]
        ring
    · rw [lookupMonth_upsert_ne m _ fun hh => hk hh.symm]
      simp [specMonthSum_cons, cntMonth_cons, hk]

theorem lookupMonth_build (ts : List Transaction) (k : Nat × Nat) :
    lookupMonth (buildMonthlyMap ts) k =
      if cntMonth ts k = 0 then none else some (specMonthSum ts k) := by
  have h := lookupMonth_fold ts [] k
  simp only [lookupMonth] at h
  rw [buildMonthlyMap, h]

theorem keysOfMonth_cons (e : (Nat × Nat) × Rat) (l : List ((Nat × Nat) × Rat)) :
    keysOfMonth (e :: l) = e.1 :: keysOfMonth l := rfl

theorem keysOfMonth_upsert (m : List ((Nat × Nat) × Rat)) (k : Nat × Nat) (a : Rat) :
    keysOfMonth (upsertMonth m k a) =
      if k ∈ keysOfMonth m then keysOfMonth m else keysOfMonth m ++ [k] := by
  induction m with
  | nil => simp [upsertMonth, keysOfMonth]
  | cons e rest ih =>
    by_cases h : e.1 = k
    · rw [upsertMonth, if_pos h, keysOfMonth_cons, keysOfMonth_cons,
        if_pos (h ▸ List.mem_cons_self e.1 (keysOfMonth rest))]
    · have hkn : ¬k = e.1 := fun hh => h hh.symm
      rw [upsertMonth, if_neg h, keysOfMonth_cons, keysOfMonth_cons, ih]
      by_cases h2 : k ∈ keysOfMonth rest
      · rw [if_pos h2, if_pos (List.mem_cons_of_mem _ h2)]
      · rw [if_neg h2, if_neg (by simp [List.mem_cons, h2, hkn]), List.cons_append]

theorem keysOfMonth_fold_nodup (l : List Transaction) :
    ∀ m : List ((Nat × Nat) × Rat), (keysOfMonth m).Nodup →
      (keysOfMonth (l.foldl (fun m t => upsertMonth m (monthKey t.date) t.amount) m)).Nodup := by
  induction l with
  | nil => intro m h; simpa using h
  | cons t rest ih =>
    intro m h
    rw [List.foldl_cons]
    apply ih
    rw [keysOfMonth_upsert]
    split_ifs with hm
    · exact h
    · simp [List.nodup_append, h, hm]

theorem buildMonthlyMap_keys_nodup (ts : List Transaction) :
    (keysOfMonth (buildMonthlyMap ts)).Nodup :=
  keysOfMonth_fold_nodup _ [] (by simp [keysOfMonth])

theorem mem_keysOfMonth_iff (m : List ((Nat × Nat) × Rat)) (k : Nat × Nat) :
    k ∈ keysOfMonth m ↔ lookupMonth m k ≠ none := by
  induction m with
  | nil => simp [keysOfMonth, lookupMonth]
  | cons e rest ih =>
    rw [keysOfMonth_cons, lookupMonth]
    by_cases h : e.1 = k
    · simp [h]
    · have hkn : ¬k = e.1 := fun hh => h hh.symm
      rw [if_neg h, List.mem_cons, ih]
      simp [hkn]

theorem mem_of_lookupMonth :
    ∀ {m : List ((Nat × Nat) × Rat)} {k : Nat × Nat} {b : Rat},
      lookupMonth m k = some b → (k, b) ∈ m := by
  intro m
  induction m with
  | nil => intro k b h; simp [lookupMonth] at h
  | cons e rest ih =>
    intro k b h
    rw [lookupMonth] at h
    split_ifs at h with he
    · obtain rfl : e.2 = b := Option.some.inj h
      exact he ▸ List.mem_cons_self e rest
    · exact List.mem_cons_of_mem e (ih h)

theorem lookupMonth_of_mem_nodup :
    ∀ {m : List ((Nat × Nat) × Rat)}, (keysOfMonth m).Nodup →
      ∀ {e : (Nat × Nat) × Rat}, e ∈ m → lookupMonth m e.1 = some e.2 := by
  intro m
  induction m with
  | nil => intro _ e he; simp at he
  | cons f rest ih =>
    intro hnd e he
    rw [keysOfMonth_cons] at hnd
    have hnd' : (keysOfMonth rest).Nodup ∧ f.1 ∉ keysOfMonth rest := by
      have hsplit := List.nodup_cons.mp hnd
      exact ⟨hsplit.2, hsplit.1⟩
    rcases List.mem_cons.mp he with rfl | hmem
    · simp [lookupMonth]
    · have hne : ¬f.1 = e.1 := by
        intro hEq
        exact hnd'.2 (hEq ▸ List.mem_map_of_mem (fun x => x.1) hmem)
      simp [lookupMonth, hne, ih hnd'.1 hmem]

theorem cntMonth_ne_zero_iff (ts : List Transaction) (k : Nat × Nat) :
    cntMonth ts k ≠ 0 ↔ ∃ t ∈ ts, monthKey t.date = k := by
  unfold cntMonth
  rw [ne_eq, List.length_eq_zero]
  constructor
  · intro h
    rcases List.exists_mem_of_ne_nil _ h with ⟨t, ht⟩
    have hmem := List.mem_filter.mp ht
    refine ⟨t, hmem.1, ?_⟩
    have hb := hmem.2
    simpa using hb
  · rintro ⟨t, ht, hk⟩ hnil
    have : t ∈ (ts.filter fun t => monthKey t.date == k) :=
      List.mem_filter.mpr ⟨ht, by simp [hk]⟩
    simp [hnil] at this

theorem length_cumulate (c : Rat) (es : List ((Nat × Nat) × Rat)) :
    (cumulate c es).length = es.length := by
  induction es generalizing c with
  | nil => simp [cumulate]
  | cons e rest ih => simp [cumulate, ih]

theorem cumulate_map_pair (c : Rat) (es : List ((Nat × Nat) × Rat)) :
    (cumulate c es).map (fun p => (p.ym, p.amount)) = es := by
  induction es generalizing c with
  | nil => simp [cumulate]
  | cons e rest ih => simp [cumulate, ih]

theorem cumulate_get_cumulative :
    ∀ (es : List ((Nat × Nat) × Rat)) (c : Rat) (i : Nat)
      (h : i < (cumulate c es).length),
      ((cumulate c es).get ⟨i, h⟩).cumulative =
        c + ((es.take (i + 1)).map fun e => e.2).sum := by
  intro es
  induction es with
  | nil => intro c i h; simp [cumulate] at h
  | cons e rest ih =>
    intro c i h
    cases i with
    | zero => simp [cumulate]
    | succ j =>
      have hj : j < (cumulate (c + e.2) rest).length := by
        have := h
        simp only [cumulate, List.length_cons] at this
        simpa using Nat.lt_of_succ_lt_succ this
      have hstep : ((cumulate c (e :: rest)).get ⟨j + 1, h⟩) =
          ((cumulate (c + e.2) rest).get ⟨j, hj⟩) := rfl
      rw [hstep, ih (c + e.2) j hj, List.take_succ_cons, List.map_cons, List.sum_cons]
      ring

theorem timelineData_entry (ts : List Transaction) {e : TimelineData}
    (he : e ∈ timelineData ts) :
    e.amount = specMonthSum ts e.ym ∧ cntMonth ts e.ym ≠ 0 := by
  have hpair : (e.ym, e.amount) ∈ List.insertionSort entryLe (buildMonthlyMap ts) := by
    have hmem := List.mem_map_of_mem (fun p : TimelineData => (p.ym, p.amount)) he
    simp only [timelineData] at hmem
    rwa [cumulate_map_pair] at hmem
  rw [List.mem_insertionSort] at hpair
  have hl := lookupMonth_of_mem_nodup (buildMonthlyMap_keys_nodup ts) hpair
  rw [lookupMonth_build] at hl
  by_cases h0 : cntMonth ts e.ym = 0
  · rw [if_pos h0] at hl
    exact absurd hl (by simp)
  · rw [if_neg h0] at hl
    exact ⟨(Option.some.inj hl).symm, h0⟩

theorem timelineData_mem_key (ts : List Transaction) (k : Nat × Nat) :
    (∃ e ∈ timelineData ts, e.ym = k) ↔ ∃ t ∈ ts, monthKey t.date = k := by
  rw [← cntMonth_ne_zero_iff]
  constructor
  · rintro ⟨e, he, rfl⟩
    exact (timelineData_entry ts he).2
  · intro h0
    have hl : (k, specMonthSum ts k) ∈ buildMonthlyMap ts := by
      apply mem_of_lookupMonth
      rw [lookupMonth_build, if_neg h0]
    have hs : (k, specMonthSum ts k) ∈ List.insertionSort entryLe (buildMonthlyMap ts) :=
      (List.mem_insertionSort entryLe).mpr hl
    have hmem : (k, specMonthSum ts k) ∈
        (cumulate 0 (List.insertionSort entryLe (buildMonthlyMap ts))).map
          (fun p => (p.ym, p.amount)) := by
      rw [cumulate_map_pair]
      exact hs
    obtain ⟨p, hp, hpe⟩ := List.mem_map.mp hmem
    refine ⟨p, ?_, ?_⟩
    · simpa [timelineData] using hp
    · have := congrArg Prod.fst hpe
      simpa using this

theorem timelineData_map_pair (ts : List Transaction) :
    (timelineData ts).map (fun p => (p.ym, p.amount)) =
      List.insertionSort entryLe (buildMonthlyMap ts) := by
  simp only [timelineData]
  exact cumulate_map_pair 0 _

theorem insertionSort_month_keys_nodup (ts : List Transaction) :
    ((List.insertionSort entryLe (buildMonthlyMap ts)).map
      (fun q : (Nat × Nat) × Rat => q.1)).Nodup := by
  have hperm := (List.perm_insertionSort entryLe (buildMonthlyMap ts)).map
    (fun q : (Nat × Nat) × Rat => q.1)
  exact hperm.nodup_iff.mpr (buildMonthlyMap_keys_nodup ts)

theorem timelineData_keys_nodup (ts : List Transaction) :
    ((timelineData ts).map fun e => e.ym).Nodup := by
  have h1 : (timelineData ts).map (fun e => e.ym) =
      (List.insertionSort entryLe (buildMonthlyMap ts)).map
        (fun q : (Nat × Nat) × Rat => q.1) := by
    have := congrArg (List.map (fun q : (Nat × Nat) × Rat => q.1))
      (timelineData_map_pair ts)
    rwa [List.map_map] at this
  rw [h1]
  exact insertionSort_month_keys_nodup ts

theorem ymLe_ne_lt {k1 k2 : Nat × Nat} (hle : ymLe k1 k2) (hne : k1 ≠ k2) :
    ymLt k1 k2 := by
  unfold ymLe at hle
  unfold ymLt
  have hc : ¬(k1.1 = k2.1 ∧ k1.2 = k2.2) := fun hc =>
    hne (Prod.ext_iff.mpr ⟨hc.1, hc.2⟩)
  omega

theorem timelineData_sorted (ts : List Transaction) :
    (timelineData ts).Pairwise fun p q => ymLt p.ym q.ym := by
  have hs : (List.insertionSort entryLe (buildMonthlyMap ts)).Pairwise entryLe :=
    List.sorted_insertionSort entryLe _
  have hne : (List.insertionSort entryLe (buildMonthlyMap ts)).Pairwise
      (fun a b => a.1 ≠ b.1) :=
    List.pairwise_map.mp (insertionSort_month_keys_nodup ts)
  have hlt : (List.insertionSort entryLe (buildMonthlyMap ts)).Pairwise
      (fun a b => ymLt a.1 b.1) :=
    (hs.and hne).imp fun h => ymLe_ne_lt h.1 h.2
  have hlt2 : ((timelineData ts).map fun p => (p.ym, p.amount)).Pairwise
      (fun a b => ymLt a.1 b.1) := (timelineData_map_pair ts).symm ▸ hlt
  refine List.Pairwise.of_map (fun p : TimelineData => (p.ym, p.amount)) ?_ hlt2
  intro a b hab
  exact hab

theorem timelineData_cumulative (ts : List Transaction) (i : Nat)
    (h : i < (timelineData ts).length) :
    ((timelineData ts).get ⟨i, h⟩).cumulative =
      (((timelineData ts).map fun e => e.amount).take (i + 1)).sum := by
  have hmap : (timelineData ts).map (fun e => e.amount) =
      (List.insertionSort entryLe (buildMonthlyMap ts)).map (fun e => e.2) := by
    have := congrArg (List.map (fun q : (Nat × Nat) × Rat => q.2))
      (timelineData_map_pair ts)
    rwa [List.map_map] at this
  have h' : i < (cumulate 0 (List.insertionSort entryLe (buildMonthlyMap ts))).length := h
  have hc := cumulate_get_cumulative (List.insertionSort entryLe (buildMonthlyMap ts)) 0 i h'
  rw [zero_add] at hc
  rw [hmap, ← List.map_take]
  exact hc

/-- C2: the timeline buckets all transactions (debit and credit) by
calendar year-month, each bucket's amount is the signed sum of that month's
amounts, there is exactly one entry per month with at least one transaction
(no zero-filled gaps), the buckets are sorted strictly ascending by
year-month key, and each cumulative value is the prefix sum of the bucket
amounts up to that index; the empty list yields an empty timeline. -/
theorem claim_C2 :
    timelineData [] = [] ∧
    ∀ ts : List Transaction,
      (∀ e ∈ timelineData ts, e.amount = specMonthSum ts e.ym) ∧
      (∀ k : Nat × Nat, (∃ e ∈ timelineData ts, e.ym = k) ↔
          ∃ t ∈ ts, monthKey t.date = k) ∧
      ((timelineData ts).map fun e => e.ym).Nodup ∧
      ((timelineData ts).Pairwise fun p q => ymLt p.ym q.ym) ∧
      ∀ (i : Nat) (h : i < (timelineData ts).length),
        ((timelineData ts).get ⟨i, h⟩).cumulative =
          (((timelineData ts).map fun e => e.amount).take (i + 1)).sum :=
  ⟨rfl, fun ts => ⟨fun _ he => (timelineData_entry ts he).1,
    timelineData_mem_key ts, timelineData_keys_nodup ts, timelineData_sorted ts,
    timelineData_cumulative ts⟩⟩

/-- Witness for C2 at a concrete two-month input: the second timeline point
of `c2Txs` carries the prefix sum of the two bucket amounts. -/
theorem claim_C2_witness :
    ((timelineData c2Txs).getD 1 ⟨(0, 0), 0, 0⟩).cumulative =
      (((timelineData c2Txs).map fun e => e.amount).take 2).sum := by
  have hev : timelineData c2Txs =
      [⟨(2024, 1), 20, 20⟩, ⟨(2024, 2), -5, 15⟩] := by
    norm_num +decide [timelineData, buildMonthlyMap, upsertMonth, monthKey, c2Txs,
      List.insertionSort, List.orderedInsert, entryLe, ymLe, cumulate]
  have hlen : 1 < (timelineData c2Txs).length := by
    rw [hev]
    norm_num
  have h := (claim_C2.2 c2Txs).2.2.2.2 1 hlen
  rw [List.get_eq_getElem] at h
  rwa [List.getD_eq_getElem _ _ hlen]

theorem charsStartWith_iff (bs : List Char) :
    ∀ as, charsStartWith as bs = true ↔ ∃ q, as = bs ++ q := by
  induction bs with
  | nil =>
    intro as
    simp [charsStartWith]
  | cons b bs2 ih =>
    intro as
    cases as with
    | nil => simp [charsStartWith]
    | cons a as2 =>
      rw [charsStartWith]
      simp only [Bool.and_eq_true, beq_iff_eq, ih]
      constructor
      · rintro ⟨rfl, q, rfl⟩
        exact ⟨q, rfl⟩
      · rintro ⟨q, h⟩
        injection h with h1 h2
        exact ⟨h1, q, h2⟩

theorem charsContain_iff (needle : List Char) :
    ∀ hay, charsContain needle hay = true ↔ ∃ p q, hay = p ++ needle ++ q := by
  intro hay
  induction hay with
  | nil =>
    rw [charsContain]
    constructor
    · intro h
      have hne : needle = [] := by simpa [List.isEmpty_iff] using h
      exact ⟨[], [], by simp [hne]⟩
    · rintro ⟨p, q, hpq⟩
      have hnil := hpq.symm
      simp only [List.append_eq_nil] at hnil
      simp [List.isEmpty_iff, hnil.1.2]
  | cons a rest ih =>
    rw [charsContain]
    simp only [Bool.or_eq_true, charsStartWith_iff, ih]
    constructor
    · rintro (⟨q, hq⟩ | ⟨p, q, hpq⟩)
      · exact ⟨[], q, by simpa using hq⟩
      · exact ⟨a :: p, q, by simp [hpq]⟩
    · rintro ⟨p, q, hpq⟩
      cases p with
      | nil =>
        left
        exact ⟨q, by simpa using hpq⟩
      | cons x p2 =>
        right
        injection hpq with h1 h2
        exact ⟨p2, q, h2⟩

theorem matchesSearch_iff (t : Transaction) (st : String) :
    matchesSearch t st = true ↔
      st = "" ∨ (∃ p q, lowerChars t.description = p ++ lowerChars st ++ q) ∨
        ∃ c, t.category = some c ∧ ∃ p q, lowerChars c = p ++ lowerChars st ++ q := by
  unfold matchesSearch
  cases hc : t.category with
  | none => simp [charsContain_iff, hc]
  | some c =>
    simp only [Bool.or_eq_true, beq_iff_eq, charsContain_iff, hc,
      Option.some.injEq]
    constructor
    · rintro ((h | h) | h)
      · exact Or.inl h
      · exact Or.inr (Or.inl h)
      · exact Or.inr (Or.inr ⟨c, rfl, h⟩)
    · rintro (h | h | ⟨c2, rfl, h⟩)
      · exact Or.inl (Or.inl h)
      · exact Or.inl (Or.inr h)
      · exact Or.inr h

theorem matchesCategory_iff (t : Transaction) (cf : String) :
    matchesCategory t cf = true ↔ cf = "" ∨ t.category = some cf := by
  unfold matchesCategory
  cases hc : t.category with
  | none => simp [hc]
  | some c => simp [hc]

theorem matchesType_iff (t : Transaction) (tf : String) :
    matchesType t tf = true ↔ tf = "" ∨ typeStr t.type = tf := by
  unfold matchesType
  simp

/-- C3: a transaction is in the filtered set iff it is in the input and all
three conjuncts hold: the search term is empty or occurs case-insensitively
in the description or in the (present) category; the category filter is
empty or equals the stored category exactly; the type filter is empty or
equals the transaction type exactly. Searching "grocery" matches a
"Grocery Store" description and does not match "Gas Station" with no
matching category text. -/
theorem claim_C3 :
    (∀ (ts : List Transaction) (searchTerm categoryFilter typeFilter : String)
        (t : Transaction),
        t ∈ filterTxs ts searchTerm categoryFilter typeFilter ↔
          t ∈ ts ∧
            (searchTerm = "" ∨
              (∃ p q, lowerChars t.description = p ++ lowerChars searchTerm ++ q) ∨
              ∃ c, t.category = some c ∧
                ∃ p q, lowerChars c = p ++ lowerChars searchTerm ++ q) ∧
            (categoryFilter = "" ∨ t.category = some categoryFilter) ∧
            (typeFilter = "" ∨ typeStr t.type = typeFilter)) ∧
    matchesSearch groceryTx "grocery" = true ∧
    matchesSearch gasTx "grocery" = false := by
  refine ⟨?_, by decide, by decide⟩
  intro ts st cf tf t
  rw [filterTxs, List.mem_filter, Bool.and_eq_true, Bool.and_eq_true,
    matchesSearch_iff, matchesCategory_iff, matchesType_iff, and_assoc]

/-- C10: a transaction with an absent category fails every non-empty
category filter — in particular the displayed label "Uncategorized"
matches no uncategorized transaction — and passes the category filter only
when the filter is empty; with a non-empty category filter such a
transaction is never in the filtered set. -/
theorem claim_C10 :
    ∀ t : Transaction, t.category = none →
      (∀ cf : String, cf ≠ "" → matchesCategory t cf = false) ∧
      matchesCategory t "Uncategorized" = false ∧
      matchesCategory t "" = true ∧
      ∀ (ts : List Transaction) (st tf cf : String), cf ≠ "" →
        t ∉ filterTxs ts st cf tf := by
  intro t hc
  have hm : ∀ cf : String, cf ≠ "" → matchesCategory t cf = false := by
    intro cf hcf
    rw [matchesCategory, hc]
    simp [hcf]
  refine ⟨hm, hm _ (by decide), by simp [matchesCategory], ?_⟩
  intro ts st tf cf hcf hmem
  rw [filterTxs, List.mem_filter] at hmem
  have hpred := hmem.2
  simp only [Bool.and_eq_true] at hpred
  have hmc := hpred.1.2
  rw [hm cf hcf] at hmc
  exact Bool.false_ne_true hmc

/-- Witness for C10 at a concrete uncategorized transaction: the
"Uncategorized" label and another non-empty filter both fail, the empty
filter passes, and the transaction is excluded from a concrete filtered
set. -/
theorem claim_C10_witness :
    matchesCategory uncatTx "Uncategorized" = false ∧
      matchesCategory uncatTx "Food" = false ∧
      matchesCategory uncatTx "" = true ∧
      uncatTx ∉ filterTxs [uncatTx] "" "Uncategorized" "" := by
  have h := claim_C10 uncatTx rfl
  exact ⟨h.2.1, h.1 "Food" (by decide), h.2.2.1,
    h.2.2.2 [uncatTx] "" "" "Uncategorized" (by decide)⟩

theorem sliceIdx_ofNat (len n : Nat) : sliceIdx len (n : Int) = min n len := by
  unfold sliceIdx
  rw [if_neg (by omega)]
  rw [Int.toNat_ofNat]

theorem take_min_length {α : Type} (l : List α) (n : Nat) :
    l.take (min n l.length) = l.take n := by
  rcases le_total n l.length with h | h
  · rw [min_eq_left h]
  · rw [min_eq_right h, List.take_length, List.take_of_length_le h]

theorem drop_min_length {α : Type} (l : List α) (n : Nat) :
    l.drop (min n l.length) = l.drop n := by
  rcases le_total n l.length with h | h
  · rw [min_eq_left h]
  · rw [min_eq_right h, List.drop_length, List.drop_eq_nil_of_le h]

theorem paginate_nat (l : List Transaction) (k : Nat) :
    paginatedTransactions l ((k : Int) + 1) = (l.drop (50 * k)).take 50 := by
  unfold paginatedTransactions jsSlice itemsPerPage
  have h1 : ((k : Int) + 1 - 1) * (50 : Nat) = ((50 * k : Nat) : Int) := by
    push_cast
    ring
  have h2 : ((k : Int) + 1) * (50 : Nat) = ((50 * k + 50 : Nat) : Int) := by
    push_cast
    ring
  rw [h1, h2, sliceIdx_ofNat, sliceIdx_ofNat, take_min_length]
  rcases le_total (50 * k) l.length with hk | hk
  · rw [min_eq_left hk, List.drop_take]
    congr 1
    omega
  · rw [min_eq_right hk]
    have h3 : List.drop l.length (List.take (50 * k + 50) l) = [] :=
      List.drop_eq_nil_of_le (by rw [List.length_take]; omega)
    have h4 : List.drop (50 * k) l = [] := List.drop_eq_nil_of_le hk
    rw [h3, h4, List.take_nil]

theorem length_le_totalPages (n : Nat) : n ≤ 50 * totalPages n := by
  unfold totalPages itemsPerPage
  omega

theorem totalPages_least (n m : Nat) (h : n ≤ 50 * m) : totalPages n ≤ m := by
  unfold totalPages itemsPerPage
  omega

theorem pages_flatten :
    ∀ (n : Nat) (l : List Transaction), l.length ≤ 50 * n →
      ((List.range n).map fun k => (l.drop (50 * k)).take 50).flatten = l := by
  intro n
  induction n with
  | zero =>
    intro l h
    have hl : l = [] := List.eq_nil_of_length_eq_zero (by omega)
    simp [hl]
  | succ m ih =>
    intro l h
    rw [List.range_succ_eq_map, List.map_cons, List.map_map, List.flatten_cons]
    have hrest : ((List.range m).map ((fun k => (l.drop (50 * k)).take 50) ∘
        fun k => k + 1)) =
        (List.range m).map fun k => ((l.drop 50).drop (50 * k)).take 50 := by
      apply List.map_congr_left
      intro k _
      simp only [Function.comp]
      rw [List.drop_drop]
      congr 2
      omega
    rw [hrest, ih (l.drop 50) (by rw [List.length_drop]; omega)]
    simp only [Nat.mul_zero, List.drop_zero]
    exact List.take_append_drop 50 l

theorem pagesOf_eq (l : List Transaction) :
    pagesOf l = (List.range (totalPages l.length)).map
      fun k => (l.drop (50 * k)).take 50 := by
  unfold pagesOf
  apply List.map_congr_left
  intro k _
  exact paginate_nat l k

/-- C7: `totalPages` is exactly the ceiling of `N / 50`, the pages from 1
to `totalPages` concatenate back to the filtered list (so the page sizes
sum to `N`), and every page before the last has exactly 50 rows. -/
theorem claim_C7 :
    ∀ l : List Transaction,
      (l.length ≤ 50 * totalPages l.length ∧
        ∀ m : Nat, l.length ≤ 50 * m → totalPages l.length ≤ m) ∧
      (pagesOf l).flatten = l ∧
      ((pagesOf l).map fun page => page.length).sum = l.length ∧
      ∀ p : Nat, 1 ≤ p → p < totalPages l.length →
        (paginatedTransactions l (p : Int)).length = 50 := by
  intro l
  have hflat : (pagesOf l).flatten = l := by
    rw [pagesOf_eq]
    exact pages_flatten (totalPages l.length) l (length_le_totalPages l.length)
  refine ⟨⟨length_le_totalPages l.length, totalPages_least l.length⟩, hflat, ?_, ?_⟩
  · rw [← List.length_flatten, hflat]
  · intro p h1 h2
    obtain ⟨k, rfl⟩ : ∃ k, p = k + 1 := ⟨p - 1, by omega⟩
    have hcast : ((k + 1 : Nat) : Int) = (k : Int) + 1 := by push_cast; ring
    rw [hcast, paginate_nat, List.length_take, List.length_drop]
    have hfull : 50 * (k + 1) ≤ l.length := by
      unfold totalPages itemsPerPage at h2
      omega
    omega

/-- Witness for C7 on a 60-row list: two pages, the first full with 50
rows, and the pages concatenate back to the list. -/
theorem claim_C7_witness :
    totalPages (List.replicate 60 uncatTx).length = 2 ∧
      (paginatedTransactions (List.replicate 60 uncatTx) ((1 : Nat) : Int)).length = 50 ∧
      (pagesOf (List.replicate 60 uncatTx)).flatten = List.replicate 60 uncatTx := by
  have h := claim_C7 (List.replicate 60 uncatTx)
  have hlen : (List.replicate 60 uncatTx).length = 60 := List.length_replicate 60 uncatTx
  refine ⟨?_, ?_, h.2.1⟩
  · rw [hlen]
    decide
  · exact h.2.2.2 1 (by omega) (by rw [hlen]; decide)

/-- Counterexample for C8: with a single transaction there is exactly one
page, and the slice shown for the out-of-range page 2 is empty instead of
the nearest in-range page's slice. -/
theorem claim_C8_counterexample :
    totalPages ([uncatTx] : List Transaction).length = 1 ∧
      paginatedTransactions [uncatTx] 2 = [] ∧
      paginatedTransactions [uncatTx] 1 = [uncatTx] ∧
      paginatedTransactions [uncatTx] 2 ≠ paginatedTransactions [uncatTx] 1 := by
  refine ⟨by decide, rfl, rfl, ?_⟩
  intro h
  have h2 : ([] : List Transaction) = [uncatTx] := h
  exact List.noConfusion h2

/-- C8 amended: the slice itself is not clamped — any page above
`totalPages` yields an empty slice (without erroring) — while clamping
happens only in the navigation handlers: from an in-range page, Previous
moves to `max 1 (p − 1)` and Next to `min totalPages (p + 1)`, both of
which stay within `1..totalPages`. -/
theorem claim_C8_amended :
    (∀ (l : List Transaction) (p : Int), (totalPages l.length : Int) < p →
        paginatedTransactions l p = []) ∧
    ∀ (tp p : Int), 1 ≤ p → p ≤ tp →
      1 ≤ prevPage p ∧ prevPage p ≤ tp ∧ 1 ≤ nextPage tp p ∧ nextPage tp p ≤ tp := by
  constructor
  · intro l p hp
    unfold paginatedTransactions jsSlice itemsPerPage
    apply List.drop_eq_nil_of_le
    rw [List.length_take]
    have hlen := length_le_totalPages l.length
    have hkey : sliceIdx l.length ((p - 1) * (50 : Nat)) = l.length := by
      unfold sliceIdx
      split_ifs with hneg
      · omega
      · omega
    rw [hkey]
    exact min_le_right _ _
  · intro tp p h1 h2
    unfold prevPage nextPage
    omega

/-- Witness for the amended C8: page 2 of a one-transaction list shows an
empty slice, and the navigation handlers keep page 1 of 1 at 1. -/
theorem claim_C8_witness :
    paginatedTransactions [uncatTx] 2 = [] ∧ prevPage 1 = 1 ∧ nextPage 1 1 = 1 := by
  have h1 := claim_C8_amended.1 [uncatTx] 2 (by norm_num [totalPages, itemsPerPage])
  have h2 := claim_C8_amended.2 1 1 (by norm_num) (by norm_num)
  exact ⟨h1, le_antisymm h2.2.1 h2.1, le_antisymm h2.2.2.2 h2.2.2.1⟩

theorem stepUpload_file_csv (st : UploadState) (e : UploadEvent)
    (h : ∀ f, st.file = some f → isCsvFile f = true) :
    ∀ f, (stepUpload st e).1.file = some f → isCsvFile f = true := by
  cases e with
  | select sel =>
    cases sel with
    | none =>
      intro f hf
      exact h f hf
    | some g =>
      by_cases hg : isCsvFile g
      · intro f hf
        simp [stepUpload, handleFileSelect, hg] at hf
        exact hf ▸ hg
      · intro f hf
        simp [stepUpload, handleFileSelect, hg] at hf
        exact h f hf
  | drop files =>
    intro f hf
    simp only [stepUpload, handleDrop] at hf
    cases hfind : files.find? isCsvFile with
    | none =>
      rw [hfind] at hf
      exact h f hf
    | some g =>
      rw [hfind] at hf
      simp at hf
      exact hf ▸ List.find?_some hfind
  | removeFile =>
    intro f hf
    simp [stepUpload] at hf
  | upload =>
    cases hst : st.file with
    | none =>
      intro f hf
      simp only [stepUpload, hst] at hf
      simp at hf
    | some g =>
      intro f hf
      simp only [stepUpload, hst] at hf
      exact h f (hf ▸ hst)

theorem stepUpload_req_csv (st : UploadState) (e : UploadEvent)
    (h : ∀ f, st.file = some f → isCsvFile f = true) :
    ∀ f, (stepUpload st e).2 = some f → isCsvFile f = true := by
  cases e with
  | select sel =>
    intro f hf
    simp [stepUpload] at hf
  | drop files =>
    intro f hf
    simp [stepUpload] at hf
  | removeFile =>
    intro f hf
    simp [stepUpload] at hf
  | upload =>
    cases hst : st.file with
    | none =>
      intro f hf
      simp [stepUpload, hst] at hf
    | some g =>
      intro f hf
      simp only [stepUpload, hst] at hf
      have : g = f := Option.some.inj hf
      exact this ▸ h g hst

theorem runUpload_invariant :
    ∀ (evs : List UploadEvent) (st : UploadState),
      (∀ f, st.file = some f → isCsvFile f = true) →
      ∀ f ∈ (runUpload st evs).2, isCsvFile f = true := by
  intro evs
  induction evs with
  | nil =>
    intro st _ f hf
    simp [runUpload] at hf
  | cons e rest ih =>
    intro st h f hf
    have hsplit : (runUpload st (e :: rest)).2 =
        (stepUpload st e).2.toList ++ (runUpload (stepUpload st e).1 rest).2 := rfl
    rw [hsplit] at hf
    rcases List.mem_append.mp hf with h1 | h2
    · cases hopt : (stepUpload st e).2 with
      | none =>
        rw [hopt] at h1
        simp at h1
      | some g =>
        rw [hopt] at h1
        simp at h1
        exact h1 ▸ stepUpload_req_csv st e h g hopt
    · exact ih (stepUpload st e).1 (stepUpload_file_csv st e h) f h2

/-- C9: selecting or dropping a file is accepted exactly when its MIME type
is "text/csv" or its lowercased name ends with ".csv"; a rejected file
leaves the stored file unchanged and shows exactly the inline message
"Please upload a valid CSV file"; and no run of the upload zone ever posts
a non-CSV file to the network. -/
theorem claim_C9 :
    (∀ (st : UploadState) (f : FileInfo),
        (handleFileSelect st (some f) = ⟨some f, none⟩ ↔ isCsvFile f = true) ∧
        (isCsvFile f = false →
          handleFileSelect st (some f) = ⟨st.file, some csvErrorMsg⟩)) ∧
    (∀ (st : UploadState) (files : List FileInfo),
        (∀ f ∈ files, isCsvFile f = false) →
          handleDrop st files = ⟨st.file, some csvErrorMsg⟩) ∧
    ∀ evs : List UploadEvent, ∀ f ∈ (runUpload initUploadState evs).2,
      isCsvFile f = true := by
  refine ⟨?_, ?_, ?_⟩
  · intro st f
    constructor
    · constructor
      · intro hacc
        by_contra hcsv
        rw [handleFileSelect] at hacc
        rw [if_neg hcsv] at hacc
        have herr := congrArg UploadState.error hacc
        simp at herr
      · intro hcsv
        rw [handleFileSelect, if_pos hcsv]
    · intro hcsv
      rw [handleFileSelect, if_neg (by rw [hcsv]; exact Bool.false_ne_true)]
  · intro st files hall
    rw [handleDrop, List.find?_eq_none.mpr fun f hf => by rw [hall f hf]; exact
      Bool.false_ne_true]
  · intro evs
    exact runUpload_invariant evs initUploadState fun f hf => by
      simp [initUploadState] at hf

/-- Witness for C9: a PDF file is rejected with exactly the inline message
and no stored file, a text file named data.csv is accepted, and a run that
selects the PDF and clicks upload posts nothing non-CSV (in fact nothing). -/
theorem claim_C9_witness :
    handleFileSelect initUploadState (some ⟨"report.pdf", "application/pdf"⟩) =
        ⟨none, some csvErrorMsg⟩ ∧
      handleFileSelect initUploadState (some ⟨"DATA.CSV", "text/plain"⟩) =
        ⟨some ⟨"DATA.CSV", "text/plain"⟩, none⟩ ∧
      ∀ f ∈ (runUpload initUploadState
          [UploadEvent.select (some ⟨"report.pdf", "application/pdf"⟩),
            UploadEvent.upload]).2, isCsvFile f = true := by
  refine ⟨?_, ?_, claim_C9.2.2 _⟩
  · exact (claim_C9.1 initUploadState ⟨"report.pdf", "application/pdf"⟩).2 (by decide)
  · exact (claim_C9.1 initUploadState ⟨"DATA.CSV", "text/plain"⟩).1.mpr (by decide)

/-- C5: a non-2xx response raises a typed error carrying the numeric
status and a message resolved by preferring `message` then `detail` from a
parsed JSON body and falling back to the HTTP status line when parsing
fails; a 400 with JSON body detail "Invalid file format" surfaces exactly
that string; a 2xx response decodes as JSON exactly when the content-type
header contains "application/json" and resolves to raw text otherwise. -/
theorem claim_C5 :
    (∀ r : HttpResponse, r.status < 200 ∨ 300 ≤ r.status →
        handleResponse r = Except.error ⟨r.status, resolveErrorMessage r⟩ ∧
        (∀ body, r.jsonBody = some body →
          resolveErrorMessage r =
            jsOrStr body.message
              (jsOrStr body.detail ("HTTP " ++ toString r.status))) ∧
        (r.jsonBody = none → r.statusText ≠ "" →
          resolveErrorMessage r = r.statusText) ∧
        (r.jsonBody = none → r.statusText = "" →
          resolveErrorMessage r = "HTTP " ++ toString r.status)) ∧
    (∀ r : HttpResponse, 200 ≤ r.status → r.status < 300 →
        (∀ ct, r.contentType = some ct →
          charsContain "application/json".data ct.data = true →
          handleResponse r = Except.ok (ResponseData.jsonData r.jsonBody)) ∧
        (∀ ct, r.contentType = some ct →
          charsContain "application/json".data ct.data = false →
          handleResponse r = Except.ok (ResponseData.textData r.textBody)) ∧
        (r.contentType = none →
          handleResponse r = Except.ok (ResponseData.textData r.textBody))) ∧
    handleResponse c5Response = Except.error ⟨400, "Invalid file format"⟩ := by
  refine ⟨?_, ?_, by rfl⟩
  · intro r hr
    refine ⟨?_, ?_, ?_, ?_⟩
    · rw [handleResponse, if_neg (by omega)]
    · intro body hbody
      rw [resolveErrorMessage, hbody]
    · intro hnone hst
      rw [resolveErrorMessage, hnone]
      simp [hst]
    · intro hnone hst
      rw [resolveErrorMessage, hnone]
      simp [hst]
  · intro r h1 h2
    refine ⟨?_, ?_, ?_⟩
    · intro ct hct hjson
      rw [handleResponse, if_pos ⟨h1, h2⟩, hct]
      simp [hjson]
    · intro ct hct hjson
      rw [handleResponse, if_pos ⟨h1, h2⟩, hct]
      simp [hjson]
    · intro hct
      rw [handleResponse, if_pos ⟨h1, h2⟩, hct]

/-- Witness for C5: the theorem applied to the scenario 400 response and to
a concrete 200 JSON response. -/
theorem claim_C5_witness :
    handleResponse c5Response = Except.error ⟨400, "Invalid file format"⟩ ∧
      resolveErrorMessage c5Response = "Invalid file format" ∧
      handleResponse c5OkResponse =
        Except.ok (ResponseData.jsonData (some ⟨some "ok", none⟩)) := by
  have h1 := claim_C5.1 c5Response (by decide)
  have h2 := (claim_C5.2.1 c5OkResponse (by decide) (by decide)).1
    "application/json; charset=utf-8" rfl (by decide)
  refine ⟨h1.1.trans ?_, ?_, h2⟩
  · have hmsg := h1.2.1 ⟨none, some "Invalid file format"⟩ rfl
    rw [hmsg]
    rfl
  · have hmsg := h1.2.1 ⟨none, some "Invalid file format"⟩ rfl
    rw [hmsg]
    rfl

theorem charsLe_total : ∀ as bs : List Char, charsLe as bs = true ∨ charsLe bs as = true := by
  intro as
  induction as with
  | nil =>
    intro bs
    exact Or.inl rfl
  | cons a as2 ih =>
    intro bs
    cases bs with
    | nil => exact Or.inr rfl
    | cons b bs2 =>
      by_cases hab : a = b
      · subst hab
        rw [charsLe, charsLe, if_pos rfl, if_pos rfl]
        exact ih bs2
      · rw [charsLe, charsLe, if_neg hab, if_neg (Ne.symm hab)]
        rcases lt_trichotomy a b with h | h | h
        · exact Or.inl (decide_eq_true h)
        · exact absurd h hab
        · exact Or.inr (decide_eq_true h)

theorem charsLe_trans : ∀ as bs cs : List Char,
    charsLe as bs = true → charsLe bs cs = true → charsLe as cs = true := by
  intro as
  induction as with
  | nil => intro bs cs _ _; rfl
  | cons a as2 ih =>
    intro bs cs h1 h2
    cases bs with
    | nil => exact absurd h1 (by rw [charsLe]; exact Bool.false_ne_true)
    | cons b bs2 =>
      cases cs with
      | nil => exact absurd h2 (by rw [charsLe]; exact Bool.false_ne_true)
      | cons c cs2 =>
        rw [charsLe] at h1 h2 ⊢
        by_cases hab : a = b
        · subst hab
          rw [if_pos rfl] at h1
          by_cases hbc : a = c
          · subst hbc
            rw [if_pos rfl] at h2 ⊢
            exact ih bs2 cs2 h1 h2
          · rw [if_neg hbc] at h2 ⊢
            exact h2
        · rw [if_neg hab] at h1
          have hab2 : a < b := of_decide_eq_true h1
          by_cases hbc : b = c
          · subst hbc
            rw [if_neg hab]
            exact h1
          · rw [if_neg hbc] at h2
            have hbc2 : b < c := of_decide_eq_true h2
            have hac : a < c := lt_trans hab2 hbc2
            rw [if_neg (ne_of_lt hac)]
            exact decide_eq_true hac

theorem dateLe_total (d1 d2 : SimpleDate) : dateLe d1 d2 ∨ dateLe d2 d1 := by
  unfold dateLe
  omega

theorem dateLe_trans {d1 d2 d3 : SimpleDate} (h1 : dateLe d1 d2) (h2 : dateLe d2 d3) :
    dateLe d1 d3 := by
  unfold dateLe at *
  omega

theorem fieldLe_total (f : SortField) (a b : Transaction) :
    fieldLe f a b ∨ fieldLe f b a := by
  cases f
  · exact dateLe_total a.date b.date
  · exact charsLe_total (lowerChars a.description) (lowerChars b.description)
  · exact le_total (abs a.amount) (abs b.amount)
  · exact charsLe_total (lowerChars (a.category.getD ""))
      (lowerChars (b.category.getD ""))

theorem fieldLe_trans (f : SortField) {a b c : Transaction}
    (h1 : fieldLe f a b) (h2 : fieldLe f b c) : fieldLe f a c := by
  cases f
  · exact dateLe_trans h1 h2
  · exact charsLe_trans _ _ _ h1 h2
  · exact le_trans h1 h2
  · exact charsLe_trans _ _ _ h1 h2

theorem jsSortRel_total (f : SortField) (o : SortOrder) (a b : Transaction) :
    jsSortRel f o a b ∨ jsSortRel f o b a := by
  cases o
  · exact fieldLe_total f a b
  · exact fieldLe_total f b a

theorem jsSortRel_trans (f : SortField) (o : SortOrder) {a b c : Transaction}
    (h1 : jsSortRel f o a b) (h2 : jsSortRel f o b c) : jsSortRel f o a c := by
  cases o
  · exact fieldLe_trans f h1 h2
  · exact fieldLe_trans f h2 h1

/-- C4: the sort stage is a stable sort by the selected field: the output
is sorted by the comparator (dates chronologically, amounts by absolute
value, strings lowercased with a missing category as the empty string), it
is a permutation of the filtered list, comparator-equal pairs keep their
original relative order, transactions of amounts −500 and 500 are
equal-ranked in both directions, and a missing category precedes every
category in ascending order. -/
theorem claim_C4 :
    ∀ (ts : List Transaction) (st cf tf : String) (f : SortField) (o : SortOrder),
      (filteredAndSorted ts st cf tf f o).Pairwise (jsSortRel f o) ∧
      (filteredAndSorted ts st cf tf f o).Perm (filterTxs ts st cf tf) ∧
      (∀ a b : Transaction, jsSortRel f o a b → jsSortRel f o b a →
        List.Sublist [a, b] (filterTxs ts st cf tf) →
        List.Sublist [a, b] (filteredAndSorted ts st cf tf f o)) ∧
      (∀ a b : Transaction, abs a.amount = abs b.amount →
        jsSortRel SortField.amount o a b ∧ jsSortRel SortField.amount o b a) ∧
      ∀ a b : Transaction, a.category = none →
        jsSortRel SortField.category SortOrder.asc a b := by
  intro ts st cf tf f o
  refine ⟨?_, ?_, ?_, ?_, ?_⟩
  · exact @List.sorted_insertionSort Transaction (jsSortRel f o) _
      ⟨jsSortRel_total f o⟩ ⟨fun a b c => jsSortRel_trans f o⟩ _
  · exact List.perm_insertionSort (jsSortRel f o) _
  · intro a b hab _ hsub
    exact List.pair_sublist_insertionSort hab hsub
  · intro a b habs
    cases o
    · exact ⟨le_of_eq habs, le_of_eq habs.symm⟩
    · exact ⟨le_of_eq habs.symm, le_of_eq habs⟩
  · intro a b hcat
    show charsLe (lowerChars (a.category.getD "")) (lowerChars (b.category.getD "")) = true
    rw [hcat]
    rfl

/-- Witness for C4: the −500 debit and the 500 credit are equal-ranked
under amount sorting in both orders, and as a comparator-equal pair they
keep their original relative order through the sort. -/
theorem claim_C4_witness :
    (jsSortRel SortField.amount SortOrder.asc txNeg500 txPos500 ∧
      jsSortRel SortField.amount SortOrder.asc txPos500 txNeg500) ∧
    (jsSortRel SortField.amount SortOrder.desc txNeg500 txPos500 ∧
      jsSortRel SortField.amount SortOrder.desc txPos500 txNeg500) ∧
    List.Sublist [txNeg500, txPos500]
      (filteredAndSorted [txNeg500, txPos500] "" "" ""
        SortField.amount SortOrder.asc) := by
  have habs : abs txNeg500.amount = abs txPos500.amount := by
    norm_num [txNeg500, txPos500]
  have ha := claim_C4 [txNeg500, txPos500] "" "" "" SortField.amount SortOrder.asc
  have hd := claim_C4 [] "" "" "" SortField.amount SortOrder.desc
  have h1 := ha.2.2.2.1 txNeg500 txPos500 habs
  have h2 := hd.2.2.2.1 txNeg500 txPos500 habs
  have hfil : filterTxs [txNeg500, txPos500] "" "" "" = [txNeg500, txPos500] := rfl
  have hsub : List.Sublist [txNeg500, txPos500]
      (filterTxs [txNeg500, txPos500] "" "" "") := by
    rw [hfil]
  have h3 := ha.2.2.1 txNeg500 txPos500 h1.1 h1.2 hsub
  exact ⟨h1, h2, h3⟩

end ClariFi
